import Mathlib

/-!
Verification of the content-creation-ecosystem scripts: a shallow embedding
of `validate_content.py`, `bundle_content.py` and `convert_to_docx.py`.
Raw markup is modelled as `String` / `List Char`; the Python regular
expression scans are embedded as explicit fuelled scanners with the same
leftmost, non-overlapping, greedy semantics.
-/

/-- ASCII lowercasing, mirroring Python `str.lower()` on the ASCII range. -/
def lowerChar (c : Char) : Char :=
  if 65 ≤ c.toNat ∧ c.toNat ≤ 90 then Char.ofNat (c.toNat + 32) else c

/-- Lowercase a string character-wise. -/
def lowerStr (s : String) : String := String.mk (s.data.map lowerChar)

/-- Python `\s` on the ASCII range. -/
def isWsC (c : Char) : Bool :=
  c == ' ' || c == '\t' || c == '\n' || c == '\r' || c == '\x0b' || c == '\x0c'

/-- The character class `[a-z0-9]` under `re.IGNORECASE`. -/
def isAlnumCI (c : Char) : Bool :=
  ('a' ≤ lowerChar c && lowerChar c ≤ 'z') || ('0' ≤ c && c ≤ '9')

/-- Case-insensitively consume a (pre-lowercased) literal pattern from the
front of the input, returning the remainder. -/
def eatCI : List Char → List Char → Option (List Char)
  | [], l => some l
  | _ :: _, [] => none
  | p :: ps, c :: cs => if lowerChar c = p then eatCI ps cs else none

/-- Greedy `[^>]*` followed by a literal `>`: the span up to the first `>`
and the remainder after it; `none` when no `>` exists. -/
def spanToGt : List Char → Option (List Char × List Char)
  | [] => none
  | c :: rest =>
    if c = '>' then some ([], rest)
    else (spanToGt rest).map (fun p => (c :: p.1, p.2))

/-- Scan to just after the first case-insensitive occurrence of the
(pre-lowercased) pattern: the non-greedy `.*?pat` step. -/
def findCIThru (pat : List Char) : List Char → Option (List Char)
  | [] => none
  | c :: cs =>
    match eatCI pat (c :: cs) with
    | some rest => some rest
    | none => findCIThru pat cs

/-- Substring test (Python `in`). -/
def containsSubB (p l : List Char) : Bool := l.tails.any (fun t => List.isPrefixOf p t)

/-- Quoted attribute value `["\']([^"\']...)["\']`: either quote opens, the
value may not contain either quote, and either quote closes. -/
def quotedVal (allowEmpty : Bool) : List Char → Option (List Char × List Char)
  | [] => none
  | q :: cs =>
    if q = '"' ∨ q = '\'' then
      let v := cs.takeWhile (fun c => ¬(c = '"' ∨ c = '\''))
      match cs.drop v.length with
      | _ :: r2 => if allowEmpty ∨ v ≠ [] then some (v, r2) else none
      | [] => none
    else none

/-- Rightmost occurrence of `key` followed by a quoted value inside a
`>`-free span (the backtracking behaviour of greedy `[^>]*key...`). -/
def attrScan (key : List Char) (allowEmpty : Bool) : List Char → Option (List Char × List Char)
  | [] => none
  | c :: cs =>
    match attrScan key allowEmpty cs with
    | some r => some r
    | none =>
      match eatCI key (c :: cs) with
      | some rest => quotedVal allowEmpty rest
      | none => none

/-- Generic fuelled `re.findall`: leftmost non-overlapping matches, advancing
one character on failure. -/
def findAllL (m : List Char → Option (α × List Char)) : Nat → List Char → List α
  | _, [] => []
  | 0, _ :: _ => []
  | fuel + 1, c :: cs =>
    match m (c :: cs) with
    | some (a, rest) => a :: findAllL m fuel rest
    | none => findAllL m fuel cs

/-- Generic fuelled `re.sub`: leftmost non-overlapping matches replaced,
advancing one character on failure. -/
def replaceAllL (m : List Char → Option (List Char × List Char)) : Nat → List Char → List Char
  | _, [] => []
  | 0, l => l
  | fuel + 1, c :: cs =>
    match m (c :: cs) with
    | some (rep, rest) => rep ++ replaceAllL m fuel rest
    | none => c :: replaceAllL m fuel cs

/-- Run a substitution pass over a string. -/
def rAll (m : List Char → Option (List Char × List Char)) (s : String) : String :=
  String.mk (replaceAllL m s.data.length s.data)

/-- Python `str.strip()`. -/
def trimL (l : List Char) : List Char :=
  ((l.dropWhile isWsC).reverse.dropWhile isWsC).reverse

/-- Python `str.strip()` on strings. -/
def trimStr (s : String) : String := String.mk (trimL s.data)

/-- Python `str.split()` helper: accumulate the current word. -/
def splitWsAux (acc : List Char) : List Char → List (List Char)
  | [] => if acc = [] then [] else [acc.reverse]
  | c :: cs =>
    if isWsC c then
      if acc = [] then splitWsAux [] cs else acc.reverse :: splitWsAux [] cs
    else splitWsAux (c :: acc) cs

/-- Python `str.split()` with no separator: split on whitespace runs. -/
def splitWsL (l : List Char) : List (List Char) := splitWsAux [] l

/-! ## Matchers for the individual regular expressions -/

/-- `<([a-z0-9]+)[^>]*>` (IGNORECASE): an open tag, capturing the name. -/
def mOpenTagName : List Char → Option (String × List Char)
  | a :: rest =>
    if a = '<' then
      let name := rest.takeWhile isAlnumCI
      if name = [] then none
      else (spanToGt (rest.drop name.length)).map (fun p => (String.mk name, p.2))
    else none
  | [] => none

/-- `</([a-z0-9]+)>` (IGNORECASE): a close tag, capturing the name. -/
def mCloseTagName : List Char → Option (String × List Char)
  | a :: b :: rest =>
    if a = '<' ∧ b = '/' then
      let name := rest.takeWhile isAlnumCI
      if name = [] then none
      else
        match rest.drop name.length with
        | '>' :: r => some (String.mk name, r)
        | _ => none
    else none
  | _ => none

/-- `<img[^>]*>` (IGNORECASE): a whole img tag, capturing the matched text. -/
def mImgTag : List Char → Option (String × List Char)
  | a :: b :: c :: d :: rest =>
    if a = '<' ∧ lowerChar b = 'i' ∧ lowerChar c = 'm' ∧ lowerChar d = 'g' then
      (spanToGt rest).map (fun p => (String.mk (a :: b :: c :: d :: (p.1 ++ ['>'])), p.2))
    else none
  | _ => none

/-- `<h([1-6])[^>]*>` (IGNORECASE): a heading open tag, capturing the digit. -/
def mHeadingOpen : List Char → Option (Char × List Char)
  | a :: b :: c :: rest =>
    if a = '<' ∧ lowerChar b = 'h' ∧ ('1' ≤ c ∧ c ≤ '6') then
      (spanToGt rest).map (fun p => (c, p.2))
    else none
  | _ => none

/-- `<h([1-6])[^>]*>([^<]*)</h\1>` (IGNORECASE): a whole heading of the pure
form, capturing level digit and tag-free content. -/
def mHeadingFull : List Char → Option ((String × String) × List Char)
  | a :: b :: c :: rest =>
    if a = '<' ∧ lowerChar b = 'h' ∧ ('1' ≤ c ∧ c ≤ '6') then
      match spanToGt rest with
      | some (_, r1) =>
        let content := r1.takeWhile (fun x => ¬(x = '<'))
        match r1.drop content.length with
        | x :: y :: z :: w :: r2 =>
          if x = '<' ∧ y = '/' ∧ lowerChar z = 'h' ∧ w = c then
            match r2 with
            | '>' :: r3 => some ((String.mk [c], String.mk content), r3)
            | _ => none
          else none
        | _ => none
      | none => none
    else none
  | _ => none

/-- `<a[^>]*>([^<]*)</a>` (IGNORECASE): anchor with tag-free text. -/
def mAnchorText : List Char → Option (String × List Char)
  | a :: b :: rest =>
    if a = '<' ∧ lowerChar b = 'a' then
      match spanToGt rest with
      | some (_, r1) =>
        let content := r1.takeWhile (fun x => ¬(x = '<'))
        match r1.drop content.length with
        | x :: y :: z :: w :: r2 =>
          if x = '<' ∧ y = '/' ∧ lowerChar z = 'a' ∧ w = '>' then
            some (String.mk content, r2)
          else none
        | _ => none
      | none => none
    else none
  | _ => none

/-- `href=["\']([^"\']+)["\']` (IGNORECASE): a link target value. -/
def mHrefVal (l : List Char) : Option (String × List Char) :=
  match eatCI "href=".data l with
  | some rest => (quotedVal false rest).map (fun p => (String.mk p.1, p.2))
  | none => none

/-- `src=["\']([^"\']+)["\']` (IGNORECASE): an image source value. -/
def mSrcVal (l : List Char) : Option (String × List Char) :=
  match eatCI "src=".data l with
  | some rest => (quotedVal false rest).map (fun p => (String.mk p.1, p.2))
  | none => none

/-- `<script[^>]*>.*?</script>` (DOTALL, IGNORECASE), replaced by nothing. -/
def mScriptBlock : List Char → Option (List Char × List Char)
  | a :: rest =>
    if a = '<' then
      match eatCI "script".data rest with
      | some r1 =>
        match spanToGt r1 with
        | some (_, r2) => (findCIThru "</script>".data r2).map (fun r => ([], r))
        | none => none
      | none => none
    else none
  | [] => none

/-- `<style[^>]*>.*?</style>` (DOTALL, IGNORECASE), replaced by nothing. -/
def mStyleBlock : List Char → Option (List Char × List Char)
  | a :: rest =>
    if a = '<' then
      match eatCI "style".data rest with
      | some r1 =>
        match spanToGt r1 with
        | some (_, r2) => (findCIThru "</style>".data r2).map (fun r => ([], r))
        | none => none
      | none => none
    else none
  | [] => none

/-- `<div[^>]*class="controls"[^>]*>.*?</div>` (DOTALL, IGNORECASE). -/
def mControlsDiv : List Char → Option (List Char × List Char)
  | a :: rest =>
    if a = '<' then
      match eatCI "div".data rest with
      | some r1 =>
        match spanToGt r1 with
        | some (mid, r2) =>
          if containsSubB "class=\"controls\"".data (mid.map lowerChar) then
            (findCIThru "</div>".data r2).map (fun r => ([], r))
          else none
        | none => none
      | none => none
    else none
  | [] => none

/-- `<[^>]+>`, replaced by `repl`. -/
def mAnyTag (repl : List Char) : List Char → Option (List Char × List Char)
  | a :: rest =>
    if a = '<' then
      match spanToGt rest with
      | some (mid, after) => if mid = [] then none else some (repl, after)
      | none => none
    else none
  | [] => none

/-- `\s+`, replaced by a single space. -/
def mWsPlus (l : List Char) : Option (List Char × List Char) :=
  let run := l.takeWhile isWsC
  if run = [] then none else some ([' '], l.drop run.length)

/-- `\n{3,}`, replaced by two newlines. -/
def mNl3 (l : List Char) : Option (List Char × List Char) :=
  let run := l.takeWhile (fun c => c = '\n')
  if 3 ≤ run.length then some (['\n', '\n'], l.drop run.length) else none


/-! ## validate_content.py: ContentValidator -/

/-- A validation issue: `(type, message, line)` tuples of the Python code. -/
structure Issue where
  typ : String
  msg : String
  line : Nat
deriving DecidableEq, Repr

/-- Content statistics gathered by `ContentValidator._calculate_stats`. -/
structure Stats where
  word_count : Nat
  headings : List (String × String)
  links : List String
  images : List String
deriving DecidableEq, Repr

/-- The void-element set of `_check_html_structure`. -/
def selfClosingTags : List String :=
  ["br", "hr", "img", "input", "meta", "link", "area", "base", "col", "embed",
   "source", "track", "wbr"]

/-- Lookup in the insertion-ordered counting dictionary (`dict.get(k, 0)`). -/
def dGet (d : List (String × Int)) (k : String) : Int :=
  match d with
  | [] => 0
  | p :: rest => if p.1 = k then p.2 else dGet rest k

/-- Update in the insertion-ordered counting dictionary (`d[k] = v`). -/
def dSet (d : List (String × Int)) (k : String) (v : Int) : List (String × Int) :=
  match d with
  | [] => [(k, v)]
  | p :: rest => if p.1 = k then (k, v) :: rest else p :: dSet rest k v

/-- One open tag processed by the balance count: void tags are skipped. -/
def bumpOpen (d : List (String × Int)) (t : String) : List (String × Int) :=
  let n := lowerStr t
  if selfClosingTags.contains n then d else dSet d n (dGet d n + 1)

/-- One close tag processed by the balance count. -/
def bumpClose (d : List (String × Int)) (t : String) : List (String × Int) :=
  let n := lowerStr t
  dSet d n (dGet d n - 1)

/-- The tag-balance portion of `_check_html_structure` (lines 88-106): count
opens minus closes per tag name and report nonzero totals. -/
def checkCounts (opens closes : List String) : List Issue :=
  let d := closes.foldl bumpClose (opens.foldl bumpOpen [])
  d.filterMap fun p =>
    if p.2 > 0 then some ⟨"html", "Unclosed <" ++ p.1 ++ "> tag(s): " ++ toString p.2, 0⟩
    else if p.2 < 0 then
      some ⟨"html", "Extra closing </" ++ p.1 ++ "> tag(s): " ++ toString p.2.natAbs, 0⟩
    else none

/-- An element of the open/close tag stream of a document. -/
inductive Tag where
  | openTag (name : String)
  | closeTag (name : String)
deriving DecidableEq, Repr

/-- The open-tag names of a tag stream, in order. -/
def opensOf (tags : List Tag) : List String :=
  tags.filterMap fun t => match t with | .openTag n => some n | .closeTag _ => none

/-- The close-tag names of a tag stream, in order. -/
def closesOf (tags : List Tag) : List String :=
  tags.filterMap fun t => match t with | .closeTag n => some n | .openTag _ => none

/-- The balance check of `_check_html_structure`, applied to the open/close
tag streams extracted from a document. -/
def balanceIssues (tags : List Tag) : List Issue :=
  checkCounts (opensOf tags) (closesOf tags)

/-- Proper nesting: every non-void open tag is closed by a matching,
properly nested close tag; void tags take no close tag. -/
def nestedBalanced (stack : List String) : List Tag → Bool
  | [] => stack.isEmpty
  | .openTag n :: rest =>
    if selfClosingTags.contains (lowerStr n) then nestedBalanced stack rest
    else nestedBalanced (lowerStr n :: stack) rest
  | .closeTag n :: rest =>
    match stack with
    | [] => false
    | t :: s => if t = lowerStr n then nestedBalanced s rest else false

/-- String-level extraction of open tags (`re.findall` at line 88). -/
def findOpenTags (content : String) : List String :=
  findAllL mOpenTagName content.data.length content.data

/-- String-level extraction of close tags (`re.findall` at line 89). -/
def findCloseTags (content : String) : List String :=
  findAllL mCloseTagName content.data.length content.data

/-- All img tags of the document (`re.findall(r'<img[^>]*>', ...)`). -/
def findImgTags (content : String) : List String :=
  findAllL mImgTag content.data.length content.data

/-- All heading open-tag level digits of the document. -/
def headingDigits (content : String) : List Char :=
  findAllL mHeadingOpen content.data.length content.data

/-- Heading levels as numbers (`[int(h) for h in headings]`). -/
def headingLevels (content : String) : List Nat :=
  (headingDigits content).map (fun d => d.toNat - 48)

/-- All tag-free anchor texts of the document. -/
def findAnchorTexts (content : String) : List String :=
  findAllL mAnchorText content.data.length content.data

/-- The `alt=` substring test on a lowercased img tag. -/
def altPresentB (tag : String) : Bool :=
  containsSubB "alt=".data (tag.data.map lowerChar)

/-- Error recorded for an img tag without `alt=`. -/
def missingAltIssue : Issue := ⟨"a11y", "Image missing alt attribute", 0⟩

/-- Error recorded when headings exist but none is an h1. -/
def noH1Issue : Issue := ⟨"a11y", "No h1 tag found", 0⟩

/-- The missing-alt errors of `_check_accessibility`. -/
def imgAltErrors (content : String) : List Issue :=
  (findImgTags content).filterMap fun t =>
    if altPresentB t then none else some missingAltIssue

/-- Warning when the first heading is not an h1. -/
def firstHeadingWarns (levels : List Nat) : List Issue :=
  match levels with
  | [] => []
  | l :: _ =>
    if l ≠ 1 then [⟨"a11y", "First heading is h" ++ toString l ++ ", should be h1", 0⟩]
    else []

/-- Warnings for skipped heading levels. -/
def skipWarns (levels : List Nat) : List Issue :=
  (levels.zip levels.tail).filterMap fun p =>
    if p.2 > p.1 + 1 then
      some ⟨"a11y", "Heading level skipped: h" ++ toString p.1 ++ " to h" ++ toString p.2, 0⟩
    else none

/-- Warning for multiple h1 headings. -/
def h1CountWarns (levels : List Nat) : List Issue :=
  if levels = [] then []
  else if levels.count 1 > 1 then
    [⟨"a11y", "Multiple h1 tags found: " ++ toString (levels.count 1), 0⟩]
  else []

/-- Error for zero h1 headings; only reachable when `levels` is nonempty,
exactly as in the Python `if heading_levels: ... elif h1_count == 0` nesting. -/
def h1CountErrors (levels : List Nat) : List Issue :=
  if levels = [] then []
  else if levels.count 1 > 1 then []
  else if levels.count 1 = 0 then [noH1Issue]
  else []

/-- Warnings for generic link text. -/
def genericLinkWarns (content : String) : List Issue :=
  (findAnchorTexts content).filterMap fun t =>
    if ["click here", "here", "link", "read more", "more"].contains (trimStr (lowerStr t))
    then some ⟨"a11y", "Generic link text: '" ++ t ++ "'", 0⟩
    else none

/-- `ContentValidator._check_accessibility`: the `(errors, warnings)` pair it
appends, in order. -/
def checkAccessibility (content : String) : List Issue × List Issue :=
  (imgAltErrors content ++ h1CountErrors (headingLevels content),
   firstHeadingWarns (headingLevels content) ++ skipWarns (headingLevels content)
     ++ h1CountWarns (headingLevels content) ++ genericLinkWarns content)

/-- Lines 187-188 of `_calculate_stats`: raw markup with script then style
blocks removed. -/
def scriptStyleStripped (content : String) : String :=
  rAll mStyleBlock (rAll mScriptBlock content)

/-- All pure-form headings of the raw document (line 196). -/
def statHeadings (content : String) : List (String × String) :=
  findAllL mHeadingFull content.data.length content.data

/-- All href values of the raw document (line 199). -/
def statLinks (content : String) : List String :=
  findAllL mHrefVal content.data.length content.data

/-- All src values of the raw document (line 202). -/
def statImages (content : String) : List String :=
  findAllL mSrcVal content.data.length content.data

/-- `ContentValidator._calculate_stats`: word count from the script/style
stripped text, headings/links/images extracted from the raw markup. -/
def calcStats (content : String) : Stats :=
  let text := rAll (mAnyTag [' ']) (scriptStyleStripped content)
  let text := trimStr (rAll mWsPlus text)
  let words := (splitWsL text.data).filter (fun w => w.length > 0)
  { word_count := words.length
    headings := statHeadings content
    links := statLinks content
    images := statImages content }

/-- Report lines of `ContentValidator.report`. -/
def sep60 : String := String.mk (List.replicate 60 '=')

/-- The dashed separator before the status line. -/
def dash60 : String := String.mk (List.replicate 60 '-')

/-- The ` (line N)` suffix shown for issues with a positive line number. -/
def lineSuffix (n : Nat) : String :=
  if n > 0 then " (line " ++ toString n ++ ")" else ""

/-- One rendered error line. -/
def errorLine (i : Issue) : String :=
  "  ✗ [" ++ i.typ ++ "] " ++ i.msg ++ lineSuffix i.line

/-- One rendered warning line. -/
def warningLine (i : Issue) : String :=
  "  ⚠ [" ++ i.typ ++ "] " ++ i.msg ++ lineSuffix i.line

/-- The status line of the report (lines 264-269). -/
def statusLine (errors warnings : List Issue) : String :=
  if errors ≠ [] then
    "Status: ✗ FAILED (" ++ toString errors.length ++ " errors, "
      ++ toString warnings.length ++ " warnings)"
  else if warnings ≠ [] then
    "Status: ⚠ PASSED WITH WARNINGS (" ++ toString warnings.length ++ " warnings)"
  else "Status: ✓ PASSED"

/-- `ContentValidator.report` as its list of lines (joined with newlines by
the code). -/
def reportLines (stats : Stats) (errors warnings : List Issue) : List String :=
  [sep60, "CONTENT VALIDATION REPORT", sep60, "",
   "Statistics:",
   "  Word count: " ++ toString stats.word_count,
   "  Headings: " ++ toString stats.headings.length,
   "  Links: " ++ toString stats.links.length,
   "  Images: " ++ toString stats.images.length, ""]
  ++ (if errors ≠ [] then
        ("ERRORS (" ++ toString errors.length ++ "):") :: (errors.map errorLine ++ [""])
      else [])
  ++ (if warnings ≠ [] then
        ("WARNINGS (" ++ toString warnings.length ++ "):") :: (warnings.map warningLine ++ [""])
      else [])
  ++ [dash60, statusLine errors warnings, sep60]

/-- The rendered report. -/
def report (stats : Stats) (errors warnings : List Issue) : String :=
  String.intercalate "\n" (reportLines stats errors warnings)

/-- `main`'s exit code for a single-file run:
`success = len(validator.errors) == 0; return 0 if success else 1`. -/
def mainExitCode (errors : List Issue) : Nat :=
  if errors.isEmpty then 0 else 1

/-- Recogniser for the status line of a report. -/
def isStatusLine (s : String) : Bool := List.isPrefixOf "Status:".data s.data

/-! ## bundle_content.py: ContentBundler -/

/-- An author record of a reference (`{family, given}`, both optional). -/
structure RefAuthor where
  family : Option String
  given : Option String
deriving DecidableEq, Repr

/-- A reference record as consumed by `_ref_to_bibtex`; every field the code
reads with `.get`/`in` is optional. -/
structure Reference where
  id : Option String
  type : Option String
  authors : List RefAuthor
  title : Option String
  journal : Option String
  booktitle : Option String
  year : Option Nat
  volume : Option String
  issue : Option String
  pages : Option String
  doi : Option String
deriving DecidableEq, Repr

/-- `"{family}, {given}"` with missing parts defaulting to the empty string. -/
def authorStr (a : RefAuthor) : String :=
  (a.family.getD "") ++ ", " ++ (a.given.getD "")

/-- An optional `  name = {value}` field line. -/
def optField (name : String) (v : Option String) : List String :=
  match v with
  | some s => ["  " ++ name ++ " = \x7b" ++ s ++ "\x7d"]
  | none => []

/-- `ContentBundler._ref_to_bibtex` (lines 347-389). -/
def refToBibtex (ref : Reference) : String :=
  let refType := ref.type.getD "article"
  let refId := ref.id.getD "unknown"
  let fields :=
    (if ref.authors = [] then []
     else ["  author = \x7b"
            ++ String.intercalate " and " (ref.authors.map authorStr) ++ "\x7d"])
    ++ optField "title" ref.title
    ++ optField "journal" ref.journal
    ++ optField "booktitle" ref.booktitle
    ++ (match ref.year with
        | some y => ["  year = \x7b" ++ toString y ++ "\x7d"]
        | none => [])
    ++ optField "volume" ref.volume
    ++ optField "number" ref.issue
    ++ optField "pages" ref.pages
    ++ optField "doi" ref.doi
  "@" ++ refType ++ "\x7b" ++ refId ++ ",\n" ++ String.intercalate ",\n" fields ++ "\n\x7d"

/-- The joined BibTeX export text (lines 337-343; `if entry:` keeps only
truthy, i.e. nonempty, entries). -/
def bibtexExport (refs : List Reference) : String :=
  String.intercalate "\n\n" ((refs.map refToBibtex).filter (fun e => e ≠ ""))

/-- Result of a bibtex bundling run: the warnings printed and the artifact
text written, if any file was written at all. -/
structure BibBundle where
  warnings : List String
  written : Option String
deriving DecidableEq, Repr

/-- The warning printed when `references.json` is absent. -/
def refsMissingWarning : String := "Warning: No references.json found"

/-- `ContentBundler._bundle_bibtex` (lines 320-345): when the reference
collection file is absent the code prints a warning and returns without
writing anything; otherwise the parsed references are exported. Parsing the
file is the only fallible step and is passed in as `parseRefs`. -/
def bundleBibtex (refsFileExists : Bool) (parseRefs : Except String (List Reference)) :
    Except String BibBundle :=
  if refsFileExists = false then
    .ok { warnings := [refsMissingWarning], written := none }
  else
    match parseRefs with
    | .ok refs => .ok { warnings := [], written := some (bibtexExport refs) }
    | .error e => .error e

/-! ## bundle_content.py: the text and markdown renderers -/

/-- `<name[^>]*>([^<]*)</name>` (IGNORECASE), replaced by
`wrapL + content + wrapR` (`name` given pre-lowercased). -/
def mSimpleInline (name wrapL wrapR : List Char) : List Char → Option (List Char × List Char)
  | a :: rest =>
    if a = '<' then
      match eatCI name rest with
      | some r1 =>
        match spanToGt r1 with
        | some (_, r2) =>
          let content := r2.takeWhile (fun x => ¬(x = '<'))
          match r2.drop content.length with
          | x :: y :: r3 =>
            if x = '<' ∧ y = '/' then
              match eatCI name r3 with
              | some ('>' :: r4) => some (wrapL ++ content ++ wrapR, r4)
              | _ => none
            else none
          | _ => none
        | none => none
      | none => none
    else none
  | [] => none

/-- `<name[^>]*>` (IGNORECASE), replaced by `repl`. -/
def mOpenOnly (name repl : List Char) : List Char → Option (List Char × List Char)
  | a :: rest =>
    if a = '<' then
      match eatCI name rest with
      | some r1 => (spanToGt r1).map (fun p => (repl, p.2))
      | none => none
    else none
  | [] => none

/-- A case-insensitive literal (such as `</p>`), replaced by `repl`. -/
def mLit (pat repl : List Char) (l : List Char) : Option (List Char × List Char) :=
  (eatCI pat l).map (fun r => (repl, r))

/-- `<br\s*/?>` or `<hr\s*/?>` style tags (IGNORECASE), replaced by `repl`. -/
def mVoidSlash (name repl : List Char) : List Char → Option (List Char × List Char)
  | a :: rest =>
    if a = '<' then
      match eatCI name rest with
      | some r1 =>
        let r2 := r1.dropWhile isWsC
        match r2 with
        | '/' :: '>' :: r3 => some (repl, r3)
        | '>' :: r3 => some (repl, r3)
        | _ => none
      | none => none
    else none
  | [] => none

/-- Rightmost `src=` with nonempty quoted value such that an `alt=` with a
quoted value still occurs after it: the backtracking of
`<img[^>]*src=["\']([^"\']+)["\'][^>]*alt=["\']([^"\']*)["\'][^>]*/?>`. -/
def srcThenAlt : List Char → Option (List Char × List Char)
  | [] => none
  | c :: cs =>
    match srcThenAlt cs with
    | some r => some r
    | none =>
      match eatCI "src=".data (c :: cs) with
      | some rest =>
        match quotedVal false rest with
        | some (v, rest2) =>
          match attrScan "alt=".data true rest2 with
          | some (a, _) => some (v, a)
          | none => none
        | none => none
      | none => none

/-- Rightmost `alt=` with quoted value such that a `src=` with a nonempty
quoted value still occurs after it (the alt-before-src img pattern). -/
def altThenSrc : List Char → Option (List Char × List Char)
  | [] => none
  | c :: cs =>
    match altThenSrc cs with
    | some r => some r
    | none =>
      match eatCI "alt=".data (c :: cs) with
      | some rest =>
        match quotedVal true rest with
        | some (a, rest2) =>
          match attrScan "src=".data false rest2 with
          | some (v, _) => some (a, v)
          | none => none
        | none => none
      | none => none

/-- `<a[^>]*href=["\']([^"\']+)["\'][^>]*>([^<]*)</a>` (IGNORECASE),
replaced by `[text](href)`. -/
def mLinkMd : List Char → Option (List Char × List Char)
  | a :: b :: rest =>
    if a = '<' ∧ lowerChar b = 'a' then
      match spanToGt rest with
      | some (mid, r1) =>
        match attrScan "href=".data false mid with
        | some (href, _) =>
          let content := r1.takeWhile (fun x => ¬(x = '<'))
          match r1.drop content.length with
          | x :: y :: z :: w :: r2 =>
            if x = '<' ∧ y = '/' ∧ lowerChar z = 'a' ∧ w = '>' then
              some ('[' :: content ++ ']' :: '(' :: href ++ [')'], r2)
            else none
          | _ => none
        | none => none
      | none => none
    else none
  | _ => none

/-- The src-then-alt img pattern (line 204), replaced by `![alt](src)`. -/
def mImgMdSA : List Char → Option (List Char × List Char)
  | a :: rest =>
    if a = '<' then
      match eatCI "img".data rest with
      | some r1 =>
        match spanToGt r1 with
        | some (mid, after) =>
          match srcThenAlt mid with
          | some (src, alt) => some ('!' :: '[' :: alt ++ ']' :: '(' :: src ++ [')'], after)
          | none => none
        | none => none
      | none => none
    else none
  | [] => none

/-- The alt-then-src img pattern (line 205), replaced by `![alt](src)`. -/
def mImgMdAS : List Char → Option (List Char × List Char)
  | a :: rest =>
    if a = '<' then
      match eatCI "img".data rest with
      | some r1 =>
        match spanToGt r1 with
        | some (mid, after) =>
          match altThenSrc mid with
          | some (alt, src) => some ('!' :: '[' :: alt ++ ']' :: '(' :: src ++ [')'], after)
          | none => none
        | none => none
      | none => none
    else none
  | [] => none

/-- The `'\n' + '#' * i + ' '` heading replacement head. -/
def headingWrapL (i : Nat) : List Char := '\n' :: (List.replicate i '#' ++ [' '])

/-- One `<hi[^>]*>([^<]*)</hi>` heading substitution pass. -/
def headingPass (i : Nat) (l : List Char) : List Char :=
  replaceAllL (mSimpleInline ('h' :: [Char.ofNat (48 + i)]) (headingWrapL i) ['\n'])
    l.length l

/-- The six sequential heading passes (`for i in range(1, 7)`). -/
def headingPasses (l : List Char) : List Char :=
  headingPass 6 (headingPass 5 (headingPass 4 (headingPass 3 (headingPass 2 (headingPass 1 l)))))

/-- One substitution pass on a character list. -/
def passL (m : List Char → Option (List Char × List Char)) (l : List Char) : List Char :=
  replaceAllL m l.length l

/-- `ContentBundler._html_to_text` (lines 135-166). The stdlib entity
decoder `html.unescape` is an external collaborator passed in as `u`. -/
def htmlToText (u : String → String) (html : String) : String :=
  let t := passL mScriptBlock html.data
  let t := passL mStyleBlock t
  let t := passL mControlsDiv t
  let t := headingPasses t
  let t := passL (mOpenOnly "p".data "\n".data) t
  let t := passL (mLit "</p>".data "\n".data) t
  let t := passL (mOpenOnly "li".data "\n• ".data) t
  let t := passL (mLit "</li>".data [] ) t
  let t := passL (mVoidSlash "br".data "\n".data) t
  let t := passL (mVoidSlash "hr".data "\n---\n".data) t
  let t := passL (mAnyTag []) t
  let t := (u (String.mk t)).data
  let t := passL mNl3 t
  String.mk (trimL t)

/-- `ContentBundler._html_to_markdown` (lines 183-239), with `html.unescape`
passed in as `u`. -/
def htmlToMarkdown (u : String → String) (html : String) : String :=
  let t := passL mScriptBlock html.data
  let t := passL mStyleBlock t
  let t := passL mControlsDiv t
  let t := headingPasses t
  let t := passL (mSimpleInline "strong".data "**".data "**".data) t
  let t := passL (mSimpleInline "b".data "**".data "**".data) t
  let t := passL (mSimpleInline "em".data "*".data "*".data) t
  let t := passL (mSimpleInline "i".data "*".data "*".data) t
  let t := passL mLinkMd t
  let t := passL mImgMdSA t
  let t := passL mImgMdAS t
  let t := passL (mOpenOnly "p".data "\n".data) t
  let t := passL (mLit "</p>".data "\n".data) t
  let t := passL (mOpenOnly "ul".data []) t
  let t := passL (mLit "</ul>".data []) t
  let t := passL (mOpenOnly "ol".data []) t
  let t := passL (mLit "</ol>".data []) t
  let t := passL (mOpenOnly "li".data "\n- ".data) t
  let t := passL (mLit "</li>".data []) t
  let t := passL (mOpenOnly "blockquote".data "\n> ".data) t
  let t := passL (mLit "</blockquote>".data "\n".data) t
  let t := passL (mSimpleInline "code".data "`".data "`".data) t
  let t := passL (mSimpleInline "pre".data "\n```\n".data "\n```\n".data) t
  let t := passL (mVoidSlash "br".data "\n".data) t
  let t := passL (mVoidSlash "hr".data "\n---\n".data) t
  let t := passL (mAnyTag []) t
  let t := (u (String.mk t)).data
  let t := passL mNl3 t
  String.mk (trimL t)

/-! ## convert_to_docx.py: HTMLToDocxConverter._add_image -/

/-- A paragraph emitted into the rich document stream. -/
inductive DocxPara where
  | pic (src : String) (widthInches : Nat) (centered : Bool)
  | text (content : String) (centered : Bool)
  | emptyP (centered : Bool)
deriving DecidableEq, Repr

/-- `f"[Image: {alt or src}]"`. -/
def imgPlaceholder (alt src : String) : String :=
  "[Image: " ++ (if alt = "" then src else alt) ++ "]"

/-- `src.startswith(('http://', 'https://', 'data:'))`. -/
def isExternalSrc (src : String) : Bool :=
  List.isPrefixOf "http://".data src.data || List.isPrefixOf "https://".data src.data
    || List.isPrefixOf "data:".data src.data

/-- `HTMLToDocxConverter._add_image` (lines 249-270): embedding via
python-docx is the external collaborator `embedPic`, which may fail. On the
local-file path a paragraph and run are created before `add_picture`; when it
raises, that paragraph is left empty and a placeholder paragraph follows. -/
def addImage (embedPic : String → Except String Unit) (src alt : String) : List DocxPara :=
  if src ≠ "" ∧ isExternalSrc src = false then
    match embedPic src with
    | .ok _ => [.pic src 5 true]
    | .error _ => [.emptyP true, .text (imgPlaceholder alt src) true]
  else
    [.text (imgPlaceholder alt src) true]

/-- `_add_image` with its exception behaviour made explicit: the `try` body
re-raises nothing (`except Exception` catches the embedding failure and the
placeholder branch performs no fallible call), so every input yields `.ok`. -/
def addImageE (embedPic : String → Except String Unit) (src alt : String) :
    Except String (List DocxPara) :=
  if src ≠ "" ∧ isExternalSrc src = false then
    match embedPic src with
    | .ok _ => .ok [.pic src 5 true]
    | .error _ => .ok [.emptyP true, .text (imgPlaceholder alt src) true]
  else
    .ok [.text (imgPlaceholder alt src) true]

/-! ## Claims about the statistics and the accessibility checks -/

/-- C2 counterexample: in a document consisting of one script element whose
body alone holds a heading, a link and an image source, stripping
script/style leaves nothing, yet the link statistic still reports the link
from inside the script body — the heading/link/image statistics are not
computed from the script/style-stripped tree. -/
theorem c2_counterexample :
    (calcStats "<script>x <h1>T</h1> href=\"u\" src=\"v\"</script>").links = ["u"]
      ∧ scriptStyleStripped "<script>x <h1>T</h1> href=\"u\" src=\"v\"</script>" = "" :=
  ⟨rfl, rfl⟩

/-- C2 amended: the word count is computed from markup with script and style
subtrees removed, but the heading, link and image statistics are extracted
from the raw markup and do count occurrences inside script/style bodies. -/
theorem c2_amended :
    calcStats "<script>x <h1>T</h1> href=\"u\" src=\"v\"</script>"
        = ⟨0, [("1", "T")], ["u"], ["v"]⟩
      ∧ calcStats "<style>href='w'</style>" = ⟨0, [], ["w"], []⟩ :=
  ⟨rfl, rfl⟩

/-- C1 counterexample: a document with zero heading elements produces no
accessibility error at all — in particular not the claimed "no h1" error —
because the zero-h1 check sits inside the `if heading_levels:` branch. -/
theorem c1_counterexample :
    headingLevels "<p>hello</p>" = []
      ∧ (checkAccessibility "<p>hello</p>").1 = [] :=
  ⟨rfl, rfl⟩

/-- C1 amended: the validator reports exactly one "No h1 tag found" error
when the document's heading sequence is nonempty and contains no level-1
heading, and no such error otherwise; in particular a document with zero
headings reports none, and a document with exactly one h1 reports none. -/
theorem c1_amended (content : String) :
    ((checkAccessibility content).1).count noH1Issue
      = if headingLevels content ≠ [] ∧ (headingLevels content).count 1 = 0 then 1 else 0 := by
  have himg : (imgAltErrors content).count noH1Issue = 0 := by
    rw [List.count_eq_zero]
    intro h
    rcases List.mem_filterMap.mp h with ⟨t, _, ht⟩
    cases hpb : altPresentB t
    · rw [hpb] at ht
      simp only [Bool.false_eq_true, if_false, Option.some.injEq] at ht
      exact absurd ht (by decide)
    · rw [hpb] at ht
      simp at ht
  show (imgAltErrors content ++ h1CountErrors (headingLevels content)).count noH1Issue = _
  rw [List.count_append, himg, Nat.zero_add]
  by_cases h0 : headingLevels content = []
  · simp [h1CountErrors, h0]
  · by_cases h1 : (headingLevels content).count 1 > 1
    · have hne : ¬ (headingLevels content).count 1 = 0 := by omega
      simp [h1CountErrors, h0, h1, hne]
    · by_cases h2 : (headingLevels content).count 1 = 0
      · simp [h1CountErrors, h0, h1, h2]
      · simp [h1CountErrors, h0, h1, h2]

/-- C10: the heading statistic comes from the pure-form pattern
`<hN>text</hN>` with tag-free content, while the hierarchy checks scan every
heading open tag; on `<h1><em>x</em></h1>` the statistic counts zero
headings but the hierarchy check examines one, whereas on the pure
`<h1>x</h1>` both agree. -/
theorem c10_heading_count_vs_levels :
    (calcStats "<h1><em>x</em></h1>").headings = []
      ∧ headingLevels "<h1><em>x</em></h1>" = [1]
      ∧ (calcStats "<h1><em>x</em></h1>").headings.length
          < (headingLevels "<h1><em>x</em></h1>").length
      ∧ (calcStats "<h1>x</h1>").headings.length = (headingLevels "<h1>x</h1>").length := by
  refine ⟨rfl, rfl, ?_, rfl⟩
  decide

/-! ## Claims about the reference exporter -/

/-- C8: the concrete reference record of the specification. -/
def c8ref : Reference :=
  { id := some "a1", type := some "article", authors := [⟨some "Doe", some "J."⟩],
    title := some "T", journal := some "J", booktitle := none, year := some 2020,
    volume := none, issue := none, pages := none, doi := none }

/-- C8: the record `{id:"a1", type:"article", authors:[{family:"Doe",
given:"J."}], title:"T", journal:"J", year:2020}` exports as a single entry
whose header is `@article{a1,`, whose body has an author line `Doe, J.`, a
title line `T`, a journal line `J` and a year line `2020`, and which contains
no volume and no pages line. -/
theorem c8_bibtex_entry :
    refToBibtex c8ref
        = "@article\x7ba1,\n  author = \x7bDoe, J.\x7d,\n  title = \x7bT\x7d,\n  journal = \x7bJ\x7d,\n  year = \x7b2020\x7d\n\x7d"
      ∧ containsSubB "article\x7ba1,".data (refToBibtex c8ref).data = true
      ∧ containsSubB "  author = \x7bDoe, J.\x7d".data (refToBibtex c8ref).data = true
      ∧ containsSubB "  title = \x7bT\x7d".data (refToBibtex c8ref).data = true
      ∧ containsSubB "  journal = \x7bJ\x7d".data (refToBibtex c8ref).data = true
      ∧ containsSubB "  year = \x7b2020\x7d".data (refToBibtex c8ref).data = true
      ∧ containsSubB "volume".data (refToBibtex c8ref).data = false
      ∧ containsSubB "pages".data (refToBibtex c8ref).data = false := by
  refine ⟨rfl, ?_, ?_, ?_, ?_, ?_, ?_, ?_⟩ <;> decide

/-- C3 counterexample: when the reference collection file is absent, the
exporter prints one warning and returns without writing anything at all —
`written = none` — rather than emitting an empty export artifact. -/
theorem c3_counterexample :
    bundleBibtex false (Except.ok [])
      = Except.ok { warnings := [refsMissingWarning], written := none } := rfl

/-- C3 amended: a missing reference collection yields exactly one warning,
no written artifact (not even an empty one), and never a hard failure —
the run always completes with an `ok` result. -/
theorem c3_amended (parseRefs : Except String (List Reference)) :
    bundleBibtex false parseRefs
      = Except.ok { warnings := [refsMissingWarning], written := none } := rfl

/-! ## Claims about the image embedding and the renderers -/

/-- Whether an embedding attempt succeeded. -/
def isOkE (e : Except String Unit) : Bool :=
  match e with
  | .ok _ => true
  | .error _ => false

/-- C5: for every img element, when the source is a nonempty relative path
(not `http://`, `https://` or `data:`) and the picture embeds successfully,
the renderer emits one centered picture paragraph at the fixed 5-inch
display width; in every other case — remote source, data URI, empty source,
or any embedding failure — it emits the centered bracketed placeholder
paragraph `[Image: <alt-or-src>]`; and the whole code path never raises,
i.e. it always completes with an `ok` result. -/
theorem c5_add_image (embedPic : String → Except String Unit) (src alt : String) :
    addImageE embedPic src alt = Except.ok (addImage embedPic src alt)
      ∧ ((src ≠ "" ∧ isExternalSrc src = false ∧ isOkE (embedPic src) = true) →
          addImage embedPic src alt = [.pic src 5 true])
      ∧ (¬(src ≠ "" ∧ isExternalSrc src = false ∧ isOkE (embedPic src) = true) →
          DocxPara.text (imgPlaceholder alt src) true ∈ addImage embedPic src alt) := by
  by_cases hc : src ≠ "" ∧ isExternalSrc src = false
  · cases he : embedPic src
    · refine ⟨?_, ?_, ?_⟩
      · simp [addImageE, addImage, hc, he]
      · intro h
        exact absurd h.2.2 (by simp [isOkE])
      · intro _
        simp [addImage, hc, he]
    · refine ⟨?_, ?_, ?_⟩
      · simp [addImageE, addImage, hc, he]
      · intro _
        simp [addImage, hc, he]
      · intro h
        exact absurd ⟨hc.1, hc.2, rfl⟩ h
  · refine ⟨?_, ?_, ?_⟩
    · simp [addImageE, addImage, hc]
    · intro h
      exact absurd ⟨h.1, h.2.1⟩ hc
    · intro _
      simp [addImage, hc]

/-- An embedding oracle that always fails, as for a missing file. -/
def failEmbed : String → Except String Unit := fun _ => Except.error "missing file"

/-- C5 witness: a missing local file degrades to the bracketed placeholder
and the run completes without an exception. -/
theorem c5_witness :
    addImageE failEmbed "img/x.png" ""
        = Except.ok [.emptyP true, .text "[Image: img/x.png]" true]
      ∧ DocxPara.text "[Image: img/x.png]" true ∈ addImage failEmbed "img/x.png" "" := by
  have h := c5_add_image failEmbed "img/x.png" ""
  refine ⟨rfl, ?_⟩
  have hp := h.2.2 (by decide)
  simpa [imgPlaceholder] using hp

/-- C9: the plain-text and lightweight-markup renderers are pure functions
of the entity decoder and the input text (the Python methods consult no
other state), so rendering the same document to the same target twice
yields byte-identical output; the final conjuncts exercise the embedded
pipelines on the specification's own example. -/
theorem c9_renderers_deterministic (u : String → String) (html : String) :
    htmlToText u html = htmlToText u html
      ∧ htmlToMarkdown u html = htmlToMarkdown u html
      ∧ htmlToMarkdown id "<p><strong>Bold</strong> and <em>italic</em>.</p>"
          = "**Bold** and *italic*."
      ∧ htmlToText id "<p><strong>Bold</strong> and <em>italic</em>.</p>"
          = "Bold and italic." :=
  ⟨rfl, rfl, rfl, rfl⟩

/-! ## Claim about the report and the exit status -/

/-- No line whose first character differs from `S` is a status line. -/
lemma isStatusLine_of_head (c : Char) (cs : List Char) (h : c ≠ 'S') :
    isStatusLine (String.mk (c :: cs)) = false := by
  show List.isPrefixOf "Status:".data (c :: cs) = false
  have hs : "Status:".data = 'S' :: "tatus:".data := rfl
  rw [hs]
  simp only [List.isPrefixOf, Bool.and_eq_false_iff, beq_eq_false_iff_ne, ne_eq]
  exact Or.inl (fun h' => h h'.symm)

/-- Head-character criterion for not being a status line. -/
lemma isStatusLine_false_of_headNe (s : String) (c : Char) (hc : s.data.head? = some c)
    (h : c ≠ 'S') : isStatusLine s = false := by
  obtain ⟨d⟩ := s
  cases d with
  | nil => simp at hc
  | cons a as =>
    have ha : a = c := by simpa using hc
    subst ha
    exact isStatusLine_of_head a as h

/-- The status line produced by the report is recognised as such. -/
lemma isStatusLine_statusLine (errors warnings : List Issue) :
    isStatusLine (statusLine errors warnings) = true := by
  unfold statusLine
  by_cases he : errors ≠ []
  · rw [if_pos he]; rfl
  · rw [if_neg he]
    by_cases hw : warnings ≠ []
    · rw [if_pos hw]; rfl
    · rw [if_neg hw]; rfl

/-- Issue lines (which start with two spaces) are never status lines. -/
lemma filter_status_map_nil (f : Issue → String) (hf : ∀ i, isStatusLine (f i) = false)
    (l : List Issue) : (l.map f).filter (fun s => isStatusLine s) = [] := by
  induction l with
  | nil => rfl
  | cons a as ih => simp [List.filter, hf a, ih]

/-- A rendered error line starts with a space. -/
lemma errorLine_head (i : Issue) : (errorLine i).data.head? = some ' ' := rfl

/-- A rendered warning line starts with a space. -/
lemma warningLine_head (i : Issue) : (warningLine i).data.head? = some ' ' := rfl

/-- C7: every rendered report contains exactly one status line; it sits
directly before the closing ruler; it reads `PASSED` when there are no
errors and no warnings, `PASSED WITH WARNINGS` when there are warnings but
no errors, and `FAILED` when there is any error; and the process exit
status is nonzero exactly when at least one error was recorded, so warnings
never affect pass/fail. -/
theorem c7_report_status (stats : Stats) (errors warnings : List Issue) :
    (reportLines stats errors warnings).filter (fun l => isStatusLine l)
        = [statusLine errors warnings]
      ∧ (∃ pre, reportLines stats errors warnings
            = pre ++ [statusLine errors warnings, sep60])
      ∧ statusLine errors warnings
          = (if errors = [] then
               (if warnings = [] then "Status: ✓ PASSED"
                else "Status: ⚠ PASSED WITH WARNINGS ("
                      ++ toString warnings.length ++ " warnings)")
             else "Status: ✗ FAILED (" ++ toString errors.length ++ " errors, "
                    ++ toString warnings.length ++ " warnings)")
      ∧ (mainExitCode errors ≠ 0 ↔ errors ≠ []) := by
  have hsep : isStatusLine sep60 = false := by decide
  have hdash : isStatusLine dash60 = false := by decide
  have htitle : isStatusLine "CONTENT VALIDATION REPORT" = false := by decide
  have hempty : isStatusLine "" = false := by decide
  have hstat : isStatusLine "Statistics:" = false := by decide
  have hwc : ∀ s : Stats, isStatusLine ("  Word count: " ++ toString s.word_count) = false :=
    fun s => isStatusLine_false_of_headNe _ ' ' rfl (by decide)
  have hhd : ∀ s : Stats, isStatusLine ("  Headings: " ++ toString s.headings.length) = false :=
    fun s => isStatusLine_false_of_headNe _ ' ' rfl (by decide)
  have hlk : ∀ s : Stats, isStatusLine ("  Links: " ++ toString s.links.length) = false :=
    fun s => isStatusLine_false_of_headNe _ ' ' rfl (by decide)
  have him : ∀ s : Stats, isStatusLine ("  Images: " ++ toString s.images.length) = false :=
    fun s => isStatusLine_false_of_headNe _ ' ' rfl (by decide)
  have herrh : isStatusLine ("ERRORS (" ++ toString errors.length ++ "):") = false :=
    isStatusLine_false_of_headNe _ 'E' rfl (by decide)
  have hwarnh : isStatusLine ("WARNINGS (" ++ toString warnings.length ++ "):") = false :=
    isStatusLine_false_of_headNe _ 'W' rfl (by decide)
  have herrl : (errors.map errorLine).filter (fun s => isStatusLine s) = [] :=
    filter_status_map_nil _
      (fun i => isStatusLine_false_of_headNe _ ' ' (errorLine_head i) (by decide)) _
  have hwarnl : (warnings.map warningLine).filter (fun s => isStatusLine s) = [] :=
    filter_status_map_nil _
      (fun i => isStatusLine_false_of_headNe _ ' ' (warningLine_head i) (by decide)) _
  have hst : isStatusLine (statusLine errors warnings) = true :=
    isStatusLine_statusLine errors warnings
  refine ⟨?_, ?_, ?_, ?_⟩
  · unfold reportLines
    rw [List.filter_append, List.filter_append, List.filter_append]
    simp only [List.filter, hsep, htitle, hempty, hstat, hwc, hhd, hlk, him, hdash, hst]
    by_cases he : errors ≠ []
    · by_cases hw : warnings ≠ []
      · rw [if_pos he, if_pos hw]
        simp [List.filter_append, List.filter, herrh, hwarnh, herrl, hwarnl, hempty,
          hsep, hdash, hst]
      · rw [if_pos he, if_neg hw]
        simp [List.filter_append, List.filter, herrh, herrl, hempty, hsep, hdash, hst]
    · by_cases hw : warnings ≠ []
      · rw [if_neg he, if_pos hw]
        simp [List.filter_append, List.filter, hwarnh, hwarnl, hempty, hsep, hdash, hst]
      · rw [if_neg he, if_neg hw]
        simp [List.filter, hsep, hdash, hst]
  · refine ⟨[sep60, "CONTENT VALIDATION REPORT", sep60, "",
        "Statistics:",
        "  Word count: " ++ toString stats.word_count,
        "  Headings: " ++ toString stats.headings.length,
        "  Links: " ++ toString stats.links.length,
        "  Images: " ++ toString stats.images.length, ""]
      ++ (if errors ≠ [] then
            ("ERRORS (" ++ toString errors.length ++ "):") :: (errors.map errorLine ++ [""])
          else [])
      ++ (if warnings ≠ [] then
            ("WARNINGS (" ++ toString warnings.length ++ "):")
              :: (warnings.map warningLine ++ [""])
          else [])
      ++ [dash60], ?_⟩
    unfold reportLines
    simp [List.append_assoc]
  · unfold statusLine
    by_cases he : errors = []
    · rw [if_pos he, if_neg (by simpa using he)]
      by_cases hw : warnings = []
      · rw [if_pos hw, if_neg (by simpa using hw)]
      · rw [if_neg hw, if_pos hw]
    · rw [if_neg he, if_pos he]
  · unfold mainExitCode
    cases errors with
    | nil => simp
    | cons a as => simp

/-! ## Claim about the tag-balance check -/

/-- Updating then reading the counting dictionary. -/
lemma dGet_dSet (d : List (String × Int)) (k : String) (v : Int) (k' : String) :
    dGet (dSet d k v) k' = if k' = k then v else dGet d k' := by
  induction d with
  | nil =>
    simp only [dSet, dGet]
    by_cases h : k' = k
    · subst h
      simp
    · rw [if_neg (fun hh => h hh.symm), if_neg h]
  | cons p rest ih =>
    simp only [dSet]
    by_cases hp : p.1 = k
    · rw [if_pos hp]
      by_cases h : k' = k
      · subst h
        simp [dGet]
      · have h1 : ¬ k = k' := fun hh => h hh.symm
        have h2 : ¬ p.1 = k' := by rw [hp]; exact h1
        simp only [dGet, h, h1, h2, if_neg, if_false]
    · rw [if_neg hp]
      simp only [dGet, ih]
      by_cases hpk : p.1 = k'
      · have hk : ¬ k' = k := by
          intro hh
          exact hp (by rw [hpk, hh])
        rw [if_pos hpk, if_neg hk, if_pos hpk]
      · rw [if_neg hpk, if_neg hpk]

/-- Folding the open tags adds one per non-void occurrence of the key. -/
lemma dGet_foldl_bumpOpen (ts : List String) (d : List (String × Int)) (k : String) :
    dGet (ts.foldl bumpOpen d) k =
      dGet d k + (if selfClosingTags.contains k then 0
                  else (((ts.map lowerStr).count k : Nat) : Int)) := by
  induction ts generalizing d with
  | nil => simp
  | cons t ts ih =>
    rw [List.foldl_cons, ih]
    have hstep : dGet (bumpOpen d t) k
        = dGet d k + (if selfClosingTags.contains k then 0
                      else if lowerStr t = k then (1 : Int) else 0) := by
      unfold bumpOpen
      by_cases hsc : selfClosingTags.contains (lowerStr t)
      · rw [if_pos hsc]
        by_cases hk : selfClosingTags.contains k
        · rw [if_pos hk]
          ring
        · rw [if_neg hk]
          have hne : ¬ lowerStr t = k := fun h => hk (h ▸ hsc)
          rw [if_neg hne]
          ring
      · rw [if_neg hsc, dGet_dSet]
        by_cases he : k = lowerStr t
        · rw [if_pos he, he, if_neg hsc, if_pos rfl]
        · rw [if_neg he]
          by_cases hk : selfClosingTags.contains k
          · rw [if_pos hk]
            ring
          · rw [if_neg hk, if_neg (fun h => he h.symm)]
            ring
    rw [hstep]
    by_cases hk : selfClosingTags.contains k
    · rw [if_pos hk, if_pos hk, if_pos hk]
      ring
    · rw [if_neg hk, if_neg hk, if_neg hk, List.map_cons, List.count_cons]
      by_cases he : lowerStr t = k <;> simp [he] <;> push_cast <;> ring

/-- Folding the close tags subtracts one per occurrence of the key. -/
lemma dGet_foldl_bumpClose (ts : List String) (d : List (String × Int)) (k : String) :
    dGet (ts.foldl bumpClose d) k =
      dGet d k - (((ts.map lowerStr).count k : Nat) : Int) := by
  induction ts generalizing d with
  | nil => simp
  | cons t ts ih =>
    rw [List.foldl_cons, ih]
    have hstep : dGet (bumpClose d t) k
        = dGet d k - (if lowerStr t = k then (1 : Int) else 0) := by
      unfold bumpClose
      rw [dGet_dSet]
      by_cases he : k = lowerStr t
      · rw [if_pos he, he, if_pos rfl]
      · rw [if_neg he, if_neg (fun h => he h.symm)]
        ring
    rw [hstep, List.map_cons, List.count_cons]
    by_cases he : lowerStr t = k <;> simp [he] <;> push_cast <;> ring

/-- A key of the updated dictionary is an old key or the new one. -/
lemma mem_keys_dSet (d : List (String × Int)) (k : String) (v : Int) (k' : String)
    (h : k' ∈ (dSet d k v).map Prod.fst) : k' ∈ d.map Prod.fst ∨ k' = k := by
  induction d with
  | nil =>
    simp [dSet] at h
    exact Or.inr h
  | cons p rest ih =>
    simp only [dSet] at h
    by_cases hp : p.1 = k
    · rw [if_pos hp] at h
      simp only [List.map_cons, List.mem_cons] at h
      rcases h with h | h
      · exact Or.inr h
      · exact Or.inl (by simp [List.mem_cons, h])
    · rw [if_neg hp] at h
      simp only [List.map_cons, List.mem_cons] at h
      rcases h with h | h
      · exact Or.inl (by simp [h])
      · rcases ih h with h2 | h2
        · exact Or.inl (by rw [List.map_cons]; exact List.mem_cons_of_mem _ h2)
        · exact Or.inr h2

/-- Updating preserves distinctness of keys. -/
lemma nodup_keys_dSet (d : List (String × Int)) (k : String) (v : Int)
    (h : (d.map Prod.fst).Nodup) : ((dSet d k v).map Prod.fst).Nodup := by
  induction d with
  | nil => simp [dSet]
  | cons p rest ih =>
    simp only [dSet]
    rw [List.map_cons, List.nodup_cons] at h
    by_cases hp : p.1 = k
    · rw [if_pos hp]
      rw [List.map_cons, List.nodup_cons]
      exact ⟨by rw [← hp]; exact h.1, h.2⟩
    · rw [if_neg hp]
      rw [List.map_cons, List.nodup_cons]
      refine ⟨?_, ih h.2⟩
      intro hmem
      rcases mem_keys_dSet rest k v p.1 hmem with h2 | h2
      · exact h.1 h2
      · exact hp h2

/-- An open-tag step preserves distinctness of keys. -/
lemma nodup_keys_bumpOpen (d : List (String × Int)) (t : String)
    (h : (d.map Prod.fst).Nodup) : ((bumpOpen d t).map Prod.fst).Nodup := by
  unfold bumpOpen
  by_cases hsc : selfClosingTags.contains (lowerStr t)
  · rw [if_pos hsc]; exact h
  · rw [if_neg hsc]; exact nodup_keys_dSet _ _ _ h

/-- A close-tag step preserves distinctness of keys. -/
lemma nodup_keys_bumpClose (d : List (String × Int)) (t : String)
    (h : (d.map Prod.fst).Nodup) : ((bumpClose d t).map Prod.fst).Nodup := by
  unfold bumpClose
  exact nodup_keys_dSet _ _ _ h

/-- The open-tag fold preserves distinctness of keys. -/
lemma nodup_keys_foldl_bumpOpen (ts : List String) (d : List (String × Int))
    (h : (d.map Prod.fst).Nodup) : ((ts.foldl bumpOpen d).map Prod.fst).Nodup := by
  induction ts generalizing d with
  | nil => exact h
  | cons t ts ih => exact ih _ (nodup_keys_bumpOpen d t h)

/-- The close-tag fold preserves distinctness of keys. -/
lemma nodup_keys_foldl_bumpClose (ts : List String) (d : List (String × Int))
    (h : (d.map Prod.fst).Nodup) : ((ts.foldl bumpClose d).map Prod.fst).Nodup := by
  induction ts generalizing d with
  | nil => exact h
  | cons t ts ih => exact ih _ (nodup_keys_bumpClose d t h)

/-- With distinct keys, every stored entry is read back unchanged. -/
lemma dGet_of_mem (d : List (String × Int)) (h : (d.map Prod.fst).Nodup)
    (p : String × Int) (hm : p ∈ d) : dGet d p.1 = p.2 := by
  induction d with
  | nil => simp at hm
  | cons q rest ih =>
    rw [List.map_cons, List.nodup_cons] at h
    rcases List.mem_cons.mp hm with hm | hm
    · subst hm
      simp [dGet]
    · have hq : ¬ q.1 = p.1 := by
        intro hh
        exact h.1 (hh ▸ List.mem_map_of_mem Prod.fst hm)
      simp only [dGet]
      rw [if_neg hq]
      exact ih h.2 hm

/-- Unfolding proper nesting at an open tag. -/
lemma nestedBalanced_open (stack : List String) (n : String) (rest : List Tag) :
    nestedBalanced stack (Tag.openTag n :: rest)
      = (if selfClosingTags.contains (lowerStr n) then nestedBalanced stack rest
         else nestedBalanced (lowerStr n :: stack) rest) := rfl

/-- A close tag with an empty stack is never properly nested. -/
lemma nestedBalanced_close_nil (n : String) (rest : List Tag) :
    nestedBalanced [] (Tag.closeTag n :: rest) = false := rfl

/-- Unfolding proper nesting at a close tag. -/
lemma nestedBalanced_close_cons (top : String) (s : List String) (n : String)
    (rest : List Tag) :
    nestedBalanced (top :: s) (Tag.closeTag n :: rest)
      = (if top = lowerStr n then nestedBalanced s rest else false) := rfl

/-- In a properly nested stream, each non-void tag name is closed exactly
as often as it is opened (plus its occurrences still on the stack), and
void names are never closed. -/
lemma nested_count (tags : List Tag) : ∀ (stack : List String),
    (∀ n ∈ stack, ¬ selfClosingTags.contains n) →
    nestedBalanced stack tags = true →
    ∀ k, ((closesOf tags).map lowerStr).count k
          = (if selfClosingTags.contains k then 0
             else ((opensOf tags).map lowerStr).count k + stack.count k) := by
  induction tags with
  | nil =>
    intro stack _ hb k
    have hstack : stack = [] := by
      simpa [nestedBalanced, List.isEmpty_iff] using hb
    subst hstack
    simp [opensOf, closesOf]
  | cons t rest ih =>
    intro stack hs hb k
    cases t with
    | openTag n =>
      have hopens : opensOf (Tag.openTag n :: rest) = n :: opensOf rest := rfl
      have hcloses : closesOf (Tag.openTag n :: rest) = closesOf rest := rfl
      rw [hopens, hcloses]
      rw [nestedBalanced_open] at hb
      by_cases hsc : selfClosingTags.contains (lowerStr n)
      · rw [if_pos hsc] at hb
        have hrec := ih stack hs hb k
        rw [hrec]
        by_cases hk : selfClosingTags.contains k
        · rw [if_pos hk, if_pos hk]
        · rw [if_neg hk, if_neg hk, List.map_cons, List.count_cons]
          have hne : ¬ (lowerStr n == k) = true := by
            simp only [beq_iff_eq]
            intro hh
            exact hk (hh ▸ hsc)
          rw [if_neg hne]
          omega
      · rw [if_neg hsc] at hb
        have hs2 : ∀ m ∈ lowerStr n :: stack, ¬ selfClosingTags.contains m := by
          intro m hm
          rcases List.mem_cons.mp hm with hm | hm
          · subst hm; exact hsc
          · exact hs m hm
        have hrec := ih (lowerStr n :: stack) hs2 hb k
        rw [hrec]
        by_cases hk : selfClosingTags.contains k
        · rw [if_pos hk, if_pos hk]
        · rw [if_neg hk, if_neg hk, List.map_cons, List.count_cons, List.count_cons]
          omega
    | closeTag n =>
      have hopens : opensOf (Tag.closeTag n :: rest) = opensOf rest := rfl
      have hcloses : closesOf (Tag.closeTag n :: rest) = n :: closesOf rest := rfl
      rw [hopens, hcloses]
      cases stack with
      | nil =>
        rw [nestedBalanced_close_nil] at hb
        exact absurd hb (by simp)
      | cons top s =>
        rw [nestedBalanced_close_cons] at hb
        by_cases he : top = lowerStr n
        · rw [if_pos he] at hb
          have hs2 : ∀ m ∈ s, ¬ selfClosingTags.contains m :=
            fun m hm => hs m (List.mem_cons_of_mem _ hm)
          have hnsc : ¬ selfClosingTags.contains (lowerStr n) := by
            rw [← he]
            exact hs top (List.mem_cons_self _ _)
          have hrec := ih s hs2 hb k
          rw [List.map_cons, List.count_cons, hrec]
          by_cases hk : selfClosingTags.contains k
          · rw [if_pos hk, if_pos hk]
            have hne : ¬ (lowerStr n == k) = true := by
              simp only [beq_iff_eq]
              intro hh
              exact hnsc (hh ▸ hk)
            rw [if_neg hne]
          · rw [if_neg hk, if_neg hk, List.count_cons, ← he]
            by_cases hek : lowerStr n = k
            · rw [← he] at hek
              simp only [hek, beq_self_eq_true, if_true]
              omega
            · rw [← he] at hek
              have : ¬ (top == k) = true := by simpa using hek
              rw [if_neg this]
              omega
        · rw [if_neg he] at hb
          exact absurd hb (by simp)

/-- C4: for every document whose tag stream is properly nested — every
non-void open tag has a properly nested matching close tag and void tags
take no close tag — the tag-balance check records zero structural defects:
no unclosed-tag and no extra-closing-tag errors. -/
theorem c4_balanced_no_defects (tags : List Tag)
    (h : nestedBalanced [] tags = true) : balanceIssues tags = [] := by
  unfold balanceIssues checkCounts
  rw [List.filterMap_eq_nil]
  intro p hp
  have hnodup : (((closesOf tags).foldl bumpClose ((opensOf tags).foldl bumpOpen [])).map
      Prod.fst).Nodup :=
    nodup_keys_foldl_bumpClose _ _ (nodup_keys_foldl_bumpOpen _ [] (by simp))
  have hval : dGet ((closesOf tags).foldl bumpClose ((opensOf tags).foldl bumpOpen [])) p.1
      = p.2 := dGet_of_mem _ hnodup p hp
  have hcount := nested_count tags [] (by simp) h p.1
  have hget : dGet ((closesOf tags).foldl bumpClose ((opensOf tags).foldl bumpOpen [])) p.1
      = 0 := by
    rw [dGet_foldl_bumpClose, dGet_foldl_bumpOpen]
    by_cases hk : selfClosingTags.contains p.1
    · rw [if_pos hk] at hcount
      rw [if_pos hk, hcount]
      simp [dGet]
    · rw [if_neg hk] at hcount
      rw [if_neg hk, hcount]
      simp only [dGet, List.count_nil, Nat.add_zero]
      push_cast
      ring
  have hz : p.2 = 0 := by rw [← hval, hget]
  rw [hz]
  norm_num

/-- C4 witness: a concrete properly nested stream passes the balance check. -/
theorem c4_witness :
    nestedBalanced []
        [Tag.openTag "html", Tag.openTag "p", Tag.closeTag "p", Tag.closeTag "html",
         Tag.openTag "br"] = true
      ∧ balanceIssues
          [Tag.openTag "html", Tag.openTag "p", Tag.closeTag "p", Tag.closeTag "html",
           Tag.openTag "br"] = [] :=
  ⟨by decide, c4_balanced_no_defects _ (by decide)⟩

/-! ## Claim about the img alt attribute check -/

/-- An ASCII uppercase letter. -/
def upperB (c : Char) : Bool := decide (65 ≤ c.toNat ∧ c.toNat ≤ 90)

/-- An ASCII lowercase letter. -/
def lowerAlphaB (c : Char) : Bool := decide (97 ≤ c.toNat ∧ c.toNat ≤ 122)

/-- A well-behaved attribute name: nonempty, lowercase letters only, and no
name other than `alt` itself ends in `alt` (so the substring check cannot be
confused by a name such as `halt`). -/
def cleanNameB (n : String) : Bool :=
  (!n.data.isEmpty) && n.data.all lowerAlphaB
    && (n == "alt" || !(List.isPrefixOf ['t', 'l', 'a'] n.data.reverse))

/-- A well-behaved attribute value: no `=`, quote, angle bracket or
uppercase letter (so lowercasing is the identity and the value cannot forge
an `alt=` occurrence or close the tag early). -/
def cleanValueB (v : String) : Bool :=
  v.data.all fun c => !(c == '=' || c == '"' || c == '<' || c == '>' || upperB c)

/-- All attributes of the element are well-behaved. -/
def cleanAttrsB (attrs : List (String × String)) : Bool :=
  attrs.all fun p => cleanNameB p.1 && cleanValueB p.2

/-- One serialized attribute: ` name=\"value\"`. -/
def imgAttrPart (p : String × String) : List Char :=
  ' ' :: (p.1.data ++ '=' :: '"' :: (p.2.data ++ ['"']))

/-- The serialized img element `<img name=\"value\" ...>`. -/
def serializeImgL (attrs : List (String × String)) : List Char :=
  '<' :: 'i' :: 'm' :: 'g' :: (((attrs.map imgAttrPart).join) ++ ['>'])

/-- The serialized img element as a string. -/
def serializeImg (attrs : List (String × String)) : String :=
  String.mk (serializeImgL attrs)

/-- Whether the attribute mapping carries an `alt` attribute. -/
def hasAltAttr (attrs : List (String × String)) : Bool :=
  attrs.any fun p => p.1 == "alt"

/-- Substring occurrence as an explicit decomposition. -/
def occursIn (p l : List Char) : Prop := ∃ s t, l = s ++ p ++ t

/-- The executable prefix test agrees with the existential form. -/
lemma isPrefixOf_iff_ex (p : List Char) : ∀ l, List.isPrefixOf p l = true ↔ ∃ t, l = p ++ t := by
  induction p with
  | nil =>
    intro l
    simp [List.isPrefixOf]
  | cons a as ih =>
    intro l
    cases l with
    | nil => simp [List.isPrefixOf]
    | cons b bs =>
      simp only [List.isPrefixOf, Bool.and_eq_true, beq_iff_eq, ih]
      constructor
      · rintro ⟨rfl, t, rfl⟩
        exact ⟨t, rfl⟩
      · rintro ⟨t, ht⟩
        injection ht with h1 h2
        exact ⟨h1.symm, t, h2⟩

/-- The executable substring test agrees with occurrence. -/
lemma containsSubB_iff (p : List Char) : ∀ l, containsSubB p l = true ↔ occursIn p l := by
  intro l
  induction l with
  | nil =>
    simp only [containsSubB, List.tails, List.any_cons, List.any_nil, Bool.or_false,
      isPrefixOf_iff_ex, occursIn]
    constructor
    · rintro ⟨t, ht⟩
      exact ⟨[], t, by simpa using ht⟩
    · rintro ⟨s, t, h⟩
      cases s with
      | nil => exact ⟨t, by simpa using h⟩
      | cons a as => simp at h
  | cons c cs ih =>
    have htails : (c :: cs).tails = (c :: cs) :: cs.tails := by
      simp [List.tails]
    simp only [containsSubB] at ih ⊢
    rw [htails]
    simp only [List.any_cons, Bool.or_eq_true, isPrefixOf_iff_ex, ih, occursIn]
    constructor
    · rintro (⟨t, ht⟩ | ⟨s, t, h⟩)
      · exact ⟨[], t, by simpa using ht⟩
      · exact ⟨c :: s, t, by simp [h]⟩
    · rintro ⟨s, t, h⟩
      cases s with
      | nil => exact Or.inl ⟨t, by simpa using h⟩
      | cons a as =>
        injection h with h1 h2
        exact Or.inr ⟨as, t, h2⟩

/-- An occurrence in a concatenation lies in the left part, the right part,
or spans the boundary. -/
lemma occursIn_append_elim (p u v : List Char) (h : occursIn p (u ++ v)) :
    occursIn p u ∨ occursIn p v ∨
      ∃ p1 p2, p = p1 ++ p2 ∧ p1 ≠ [] ∧ p2 ≠ [] ∧ (∃ s, u = s ++ p1) ∧ ∃ t, v = p2 ++ t := by
  obtain ⟨s, t, heq⟩ := h
  have heq2 : u ++ v = s ++ (p ++ t) := by rw [heq, List.append_assoc]
  rcases List.append_eq_append_iff.mp heq2 with ⟨w, hw1, hw2⟩ | ⟨w, hw1, hw2⟩
  · exact Or.inr (Or.inl ⟨w, t, by rw [hw2, List.append_assoc]⟩)
  · rcases List.append_eq_append_iff.mp hw2 with ⟨x, hx1, hx2⟩ | ⟨x, hx1, hx2⟩
    · exact Or.inl ⟨s, x, by rw [hw1, hx1, List.append_assoc]⟩
    · cases hwn : w with
      | nil =>
        subst hwn
        simp only [List.nil_append] at hx1
        exact Or.inr (Or.inl ⟨[], t, by rw [hx2, ← hx1]; simp⟩)
      | cons wc wcs =>
        cases hxn : x with
        | nil =>
          subst hxn
          simp only [List.append_nil] at hx1
          exact Or.inl ⟨s, [], by rw [hw1, ← hx1]; simp⟩
        | cons xc xcs =>
          refine Or.inr (Or.inr ⟨w, x, hx1, ?_, ?_, ⟨s, hw1⟩, ⟨t, hx2⟩⟩)
          · rw [hwn]; simp
          · rw [hxn]; simp

/-- Occurrence is transitive along nesting. -/
lemma occursIn_mono (p q l : List Char) (h1 : occursIn p q) (h2 : occursIn q l) :
    occursIn p l := by
  obtain ⟨s1, t1, h1⟩ := h1
  obtain ⟨s2, t2, h2⟩ := h2
  exact ⟨s2 ++ s1, t1 ++ t2, by rw [h2, h1]; simp [List.append_assoc]⟩

/-- Every attribute's serialization occurs in the joined serialization. -/
lemma occursIn_part_of_mem (attrs : List (String × String)) (x : String × String)
    (hx : x ∈ attrs) : occursIn (imgAttrPart x) ((attrs.map imgAttrPart).join) := by
  induction attrs with
  | nil => simp at hx
  | cons a as ih =>
    rcases List.mem_cons.mp hx with hx | hx
    · subst hx
      exact ⟨[], (as.map imgAttrPart).join, by simp⟩
    · obtain ⟨s, t, h⟩ := ih hx
      exact ⟨imgAttrPart a ++ s, t, by simp [h, List.append_assoc]⟩

/-- Splitting at an `=` sign is unique when neither side contains `=`. -/
lemma single_eq_split (as : List Char) : ∀ (xs bs ys : List Char), '=' ∉ as → '=' ∉ bs →
    as ++ '=' :: bs = xs ++ '=' :: ys → as = xs ∧ bs = ys := by
  induction as with
  | nil =>
    intro xs bs ys _ hb h
    cases xs with
    | nil =>
      simp only [List.nil_append] at h
      injection h with _ h2
      exact ⟨rfl, h2⟩
    | cons x xs' =>
      simp only [List.nil_append, List.cons_append] at h
      injection h with h1 h2
      exfalso
      apply hb
      rw [h2]
      exact List.mem_append_right _ (List.mem_cons_self _ _)
  | cons a as' ih =>
    intro xs bs ys ha hb h
    have hane : a ≠ '=' := fun hh => ha (hh ▸ List.mem_cons_self _ _)
    have ha' : '=' ∉ as' := fun hh => ha (List.mem_cons_of_mem _ hh)
    cases xs with
    | nil =>
      simp only [List.cons_append, List.nil_append] at h
      injection h with h1 _
      exact absurd h1 hane
    | cons x xs' =>
      simp only [List.cons_append] at h
      injection h with h1 h2
      obtain ⟨hh1, hh2⟩ := ih xs' bs ys ha' hb h2
      exact ⟨by rw [h1, hh1], hh2⟩

/-- A lowercase-alphabetic name contains no `=`. -/
lemma name_no_eq (n : String) (h : n.data.all lowerAlphaB = true) : '=' ∉ n.data := by
  intro hm
  have := List.all_eq_true.mp h '=' hm
  simp [lowerAlphaB] at this

/-- A clean value contains no `=`. -/
lemma value_no_eq (v : String) (h : cleanValueB v = true) : '=' ∉ v.data := by
  intro hm
  have := List.all_eq_true.mp h '=' hm
  simp at this

/-- If `alt=` occurs inside one serialized attribute, that attribute is
named `alt`: the unique `=` of the part aligns the occurrence with the end
of the name. -/
lemma occurs_alt_in_part (x : String × String) (hn : cleanNameB x.1 = true)
    (hv : cleanValueB x.2 = true) (h : occursIn "alt=".data (imgAttrPart x)) :
    x.1 = "alt" := by
  obtain ⟨s, t, heq⟩ := h
  unfold imgAttrPart at heq
  cases s with
  | nil =>
    exfalso
    simp only [List.nil_append] at heq
    have : ' ' = 'a' := by
      have := congrArg (fun l => l.head?) heq
      simpa using this
    exact absurd this (by decide)
  | cons s0 s' =>
    have heq2 : x.1.data ++ '=' :: ('"' :: (x.2.data ++ ['"']))
        = (s' ++ ['a', 'l', 't']) ++ '=' :: t := by
      have := heq
      simp only [List.cons_append] at this
      injection this with _ h2
      rw [h2]
      simp [List.append_assoc]
    have hn' : ((!x.1.data.isEmpty) = true ∧ x.1.data.all lowerAlphaB = true)
        ∧ ((x.1 == "alt") = true ∨ List.isPrefixOf ['t', 'l', 'a'] x.1.data.reverse = false) := by
      simpa [cleanNameB, Bool.and_eq_true, Bool.or_eq_true] using hn
    have hname : '=' ∉ x.1.data := name_no_eq x.1 hn'.1.2
    have hrest : '=' ∉ '"' :: (x.2.data ++ ['"']) := by
      intro hm
      rcases List.mem_cons.mp hm with hm | hm
      · exact absurd hm.symm (by decide)
      · rcases List.mem_append.mp hm with hm | hm
        · exact value_no_eq x.2 hv hm
        · simp at hm
    obtain ⟨h1, _⟩ := single_eq_split x.1.data (s' ++ ['a', 'l', 't']) _ t hname hrest heq2
    have hsuf : List.isPrefixOf ['t', 'l', 'a'] x.1.data.reverse = true := by
      rw [isPrefixOf_iff_ex]
      exact ⟨s'.reverse, by rw [h1]; simp⟩
    rcases hn'.2 with halt | hne
    · exact (beq_iff_eq).mp halt
    · rw [hsuf] at hne
      simp at hne

/-- A serialized attribute ends in a closing quote. -/
lemma imgAttrPart_shape (x : String × String) :
    imgAttrPart x = (' ' :: (x.1.data ++ '=' :: '"' :: x.2.data)) ++ ['"'] := by
  unfold imgAttrPart
  simp [List.append_assoc]

/-- The last character of a serialized attribute is the closing quote. -/
lemma getLast_imgAttrPart (x : String × String) (h : imgAttrPart x ≠ []) :
    (imgAttrPart x).getLast h = '"' := by
  rw [List.getLast_congr h (by simp) (imgAttrPart_shape x)]
  exact List.getLast_concat _

/-- An `alt=` occurrence in the joined attribute serializations cannot span
two attributes (each part ends in `\"`, which `alt=` does not contain), so
some attribute is named `alt`. -/
lemma occurs_alt_in_join (attrs : List (String × String)) (hc : cleanAttrsB attrs = true)
    (h : occursIn "alt=".data ((attrs.map imgAttrPart).join)) : hasAltAttr attrs = true := by
  induction attrs with
  | nil =>
    exfalso
    obtain ⟨s, t, heq⟩ := h
    simp only [List.map_nil, List.join_nil] at heq
    have := congrArg List.length heq
    simp at this
    omega
  | cons x xs ih =>
    have hx : cleanNameB x.1 = true ∧ cleanValueB x.2 = true := by
      have := (List.all_eq_true.mp hc) x (List.mem_cons_self _ _)
      simpa [Bool.and_eq_true] using this
    have hxs : cleanAttrsB xs = true := by
      rw [cleanAttrsB, List.all_eq_true]
      intro p hp
      exact (List.all_eq_true.mp hc) p (List.mem_cons_of_mem _ hp)
    have hjoin : ((x :: xs).map imgAttrPart).join
        = imgAttrPart x ++ (xs.map imgAttrPart).join := by simp
    rw [hjoin] at h
    rcases occursIn_append_elim _ _ _ h with h | h | ⟨p1, p2, hp, hp1, hp2, ⟨s, hu⟩, _⟩
    · have := occurs_alt_in_part x hx.1 hx.2 h
      simp [hasAltAttr, List.any_cons, this]
    · have := ih hxs h
      simp [hasAltAttr, List.any_cons] at this ⊢
      exact Or.inr this
    · exfalso
      -- p1 is a nonempty suffix of the part, so it ends in '"', but p1 is a
      -- nonempty proper prefix of "alt=", whose characters exclude '"'.
      have hlast : p1.getLast hp1 = '"' := by
        have hpart : imgAttrPart x ≠ [] := by
          rw [imgAttrPart_shape]
          simp
        have h1 : (imgAttrPart x).getLast hpart = p1.getLast hp1 := by
          rw [List.getLast_congr hpart (by rw [← hu]; exact hpart) hu]
          exact List.getLast_append' s p1 hp1
        rw [← h1, getLast_imgAttrPart]
      have hmem : '"' ∈ p1 := hlast ▸ List.getLast_mem hp1
      have hmemp : '"' ∈ ('a' :: 'l' :: 't' :: '=' :: ([] : List Char)) := by
        have : '"' ∈ p1 ++ p2 := List.mem_append_left _ hmem
        rw [← hp] at this
        exact this
      simp at hmemp

/-- An `alt=` occurrence in the whole serialized tag lies inside the
attribute region: it cannot touch `<img` or the closing `>`. -/
lemma occurs_alt_serialize (attrs : List (String × String)) (hc : cleanAttrsB attrs = true)
    (h : occursIn "alt=".data (serializeImgL attrs)) :
    occursIn "alt=".data ((attrs.map imgAttrPart).join) := by
  have hshape : serializeImgL attrs
      = ('<' :: 'i' :: 'm' :: 'g' :: (attrs.map imgAttrPart).join) ++ ['>'] := by
    unfold serializeImgL
    simp
  rw [hshape] at h
  rcases occursIn_append_elim _ _ _ h with h | h | ⟨p1, p2, hp, hp1, hp2, _, ⟨t, ht⟩⟩
  · -- inside '<img' ++ join: peel the four-character head
    rcases occursIn_append_elim _ ['<', 'i', 'm', 'g'] _
        (by simpa using h) with h2 | h2 | ⟨p1, p2, hp, hp1, hp2, ⟨s, hu⟩, _⟩
    · exfalso
      obtain ⟨s, t, heq⟩ := h2
      have : '=' ∈ (['<', 'i', 'm', 'g'] : List Char) := by
        rw [heq]
        refine List.mem_append_left _ (List.mem_append_right _ ?_)
        simp
      simp at this
    · exact h2
    · exfalso
      -- p1 is a nonempty suffix of '<img' and a prefix of "alt=": heads clash
      have hlast : p1.getLast hp1 = 'g' := by
        have h4 : (['<', 'i', 'm', 'g'] : List Char) ≠ [] := by simp
        have h1 : (['<', 'i', 'm', 'g'] : List Char).getLast h4 = p1.getLast hp1 := by
          rw [List.getLast_congr h4 (by rw [← hu]; exact h4) hu]
          exact List.getLast_append' s p1 hp1
        rw [← h1]
        rfl
      have hmem : 'g' ∈ p1 := hlast ▸ List.getLast_mem hp1
      have : 'g' ∈ ('a' :: 'l' :: 't' :: '=' :: ([] : List Char)) := by
        have h3 : 'g' ∈ p1 ++ p2 := List.mem_append_left _ hmem
        rw [← hp] at h3
        exact h3
      simp at this
  · -- inside ['>']: too short
    exfalso
    obtain ⟨s, t, heq⟩ := h
    have := congrArg List.length heq
    simp at this
    omega
  · -- spanning into ['>']: p2 a nonempty prefix of ['>'], but '>' is not in "alt="
    exfalso
    have hmem : '>' ∈ p2 := by
      cases p2 with
      | nil => exact absurd rfl hp2
      | cons c cs =>
        have : c = '>' := by
          have := congrArg (fun l => l.head?) ht
          simpa using this.symm
        rw [this]
        exact List.mem_cons_self _ _
    have : '>' ∈ ('a' :: 'l' :: 't' :: '=' :: ([] : List Char)) := by
      have h3 : '>' ∈ p1 ++ p2 := List.mem_append_right _ hmem
      rw [← hp] at h3
      exact h3
    simp at this

/-- Conversely, a present `alt` attribute always produces an `alt=`
occurrence in the serialized tag. -/
lemma alt_occurs_of_hasAlt (attrs : List (String × String)) (h : hasAltAttr attrs = true) :
    occursIn "alt=".data (serializeImgL attrs) := by
  obtain ⟨x, hx, hx1⟩ := List.any_eq_true.mp h
  have hx1' : x.1 = "alt" := beq_iff_eq.mp hx1
  have hpart : occursIn "alt=".data (imgAttrPart x) := by
    refine ⟨[' '], '"' :: (x.2.data ++ ['"']), ?_⟩
    unfold imgAttrPart
    rw [hx1']
    rfl
  have hjoin := occursIn_mono _ _ _ hpart (occursIn_part_of_mem attrs x hx)
  obtain ⟨s, t, heq⟩ := hjoin
  exact ⟨'<' :: 'i' :: 'm' :: 'g' :: s, t ++ ['>'], by
    unfold serializeImgL
    rw [heq]
    simp [List.append_assoc]⟩

/-- Characters outside the uppercase range are fixed by lowercasing. -/
lemma lowerChar_fix (c : Char) (h : ¬(65 ≤ c.toNat ∧ c.toNat ≤ 90)) : lowerChar c = c := by
  unfold lowerChar
  rw [if_neg h]

/-- Name characters are harmless: not angle brackets, fixed by lowercase. -/
lemma name_char_facts (c : Char) (h : lowerAlphaB c = true) :
    c ≠ '<' ∧ c ≠ '>' ∧ lowerChar c = c := by
  have hr : 97 ≤ c.toNat ∧ c.toNat ≤ 122 := of_decide_eq_true h
  refine ⟨?_, ?_, ?_⟩
  · intro hh
    subst hh
    simp at hr
  · intro hh
    subst hh
    simp at hr
  · exact lowerChar_fix c (by omega)

/-- Clean value characters are harmless. -/
lemma value_char_facts (c : Char) (v : String) (hv : cleanValueB v = true) (hm : c ∈ v.data) :
    c ≠ '<' ∧ c ≠ '>' ∧ lowerChar c = c := by
  have h := List.all_eq_true.mp hv c hm
  simp only [Bool.not_eq_true', Bool.or_eq_false_iff, beq_eq_false_iff_ne, ne_eq] at h
  obtain ⟨⟨⟨⟨h1, h2⟩, h3⟩, h4⟩, h5⟩ := h
  refine ⟨h3, h4, lowerChar_fix c ?_⟩
  intro hh
  have : upperB c = true := decide_eq_true hh
  rw [h5] at this
  exact absurd this (by simp)

/-- Every character of the attribute region is harmless. -/
lemma serialize_char_facts (attrs : List (String × String)) (hc : cleanAttrsB attrs = true) :
    ∀ c ∈ (attrs.map imgAttrPart).join, c ≠ '<' ∧ c ≠ '>' ∧ lowerChar c = c := by
  intro c hmem
  rcases List.mem_join.mp hmem with ⟨l, hl, hcl⟩
  rcases List.mem_map.mp hl with ⟨x, hx, rfl⟩
  have hx' : cleanNameB x.1 = true ∧ cleanValueB x.2 = true := by
    have := (List.all_eq_true.mp hc) x hx
    simpa [Bool.and_eq_true] using this
  have hn' : ((!x.1.data.isEmpty) = true ∧ x.1.data.all lowerAlphaB = true)
      ∧ ((x.1 == "alt") = true ∨ List.isPrefixOf ['t', 'l', 'a'] x.1.data.reverse = false) := by
    simpa [cleanNameB, Bool.and_eq_true, Bool.or_eq_true] using hx'.1
  have hcases : c = ' ' ∨ c ∈ x.1.data ∨ c = '=' ∨ c = '"' ∨ c ∈ x.2.data := by
    unfold imgAttrPart at hcl
    rcases List.mem_cons.mp hcl with h | h
    · exact Or.inl h
    rcases List.mem_append.mp h with h | h
    · exact Or.inr (Or.inl h)
    rcases List.mem_cons.mp h with h | h
    · exact Or.inr (Or.inr (Or.inl h))
    rcases List.mem_cons.mp h with h | h
    · exact Or.inr (Or.inr (Or.inr (Or.inl h)))
    rcases List.mem_append.mp h with h | h
    · exact Or.inr (Or.inr (Or.inr (Or.inr h)))
    · simp at h
      exact Or.inr (Or.inr (Or.inr (Or.inl h)))
  rcases hcases with rfl | h | rfl | rfl | h
  · exact ⟨by decide, by decide, by decide⟩
  · exact name_char_facts c (List.all_eq_true.mp hn'.1.2 c h)
  · exact ⟨by decide, by decide, by decide⟩
  · exact ⟨by decide, by decide, by decide⟩
  · exact value_char_facts c x.2 hx'.2 h

/-- Lowercasing is the identity on a list of fixed characters. -/
lemma map_lowerChar_id (l : List Char) (h : ∀ c ∈ l, lowerChar c = c) :
    l.map lowerChar = l := by
  induction l with
  | nil => rfl
  | cons c cs ih =>
    rw [List.map_cons, h c (List.mem_cons_self _ _), ih (fun x hx => h x (List.mem_cons_of_mem _ hx))]

/-- Lowercasing the serialized clean img tag is the identity. -/
lemma lower_serialize (attrs : List (String × String)) (hc : cleanAttrsB attrs = true) :
    (serializeImgL attrs).map lowerChar = serializeImgL attrs := by
  apply map_lowerChar_id
  intro c hmem
  unfold serializeImgL at hmem
  rcases List.mem_cons.mp hmem with rfl | h
  · decide
  rcases List.mem_cons.mp h with rfl | h
  · decide
  rcases List.mem_cons.mp h with rfl | h
  · decide
  rcases List.mem_cons.mp h with rfl | h
  · decide
  rcases List.mem_append.mp h with h | h
  · exact (serialize_char_facts attrs hc c h).2.2
  · simp at h
    subst h
    decide

/-- The `[^>]*>` span of a `>`-free list followed by `>` is the whole list. -/
lemma spanToGt_append (l : List Char) (h : ∀ c ∈ l, c ≠ '>') :
    spanToGt (l ++ ['>']) = some (l, []) := by
  induction l with
  | nil => rfl
  | cons c cs ih =>
    have hc : c ≠ '>' := h c (List.mem_cons_self _ _)
    show spanToGt (c :: (cs ++ ['>'])) = some (c :: cs, [])
    simp only [spanToGt]
    rw [if_neg hc, ih (fun x hx => h x (List.mem_cons_of_mem _ hx))]
    rfl

/-- The img-tag matcher matches the whole serialized element. -/
lemma mImgTag_serialize (attrs : List (String × String)) (hc : cleanAttrsB attrs = true) :
    mImgTag (serializeImgL attrs) = some (serializeImg attrs, []) := by
  show mImgTag ('<' :: 'i' :: 'm' :: 'g' :: ((attrs.map imgAttrPart).join ++ ['>']))
      = some (serializeImg attrs, [])
  simp only [mImgTag]
  rw [if_pos (show True ∧ lowerChar 'i' = 'i' ∧ lowerChar 'm' = 'm' ∧ lowerChar 'g' = 'g'
        by decide)]
  rw [spanToGt_append _ (fun c hmem => (serialize_char_facts attrs hc c hmem).2.1)]
  rfl

/-- The heading matcher needs a `<` first. -/
lemma mHeadingOpen_none (c : Char) (cs : List Char) (h : c ≠ '<') :
    mHeadingOpen (c :: cs) = none := by
  cases cs with
  | nil => rfl
  | cons b bs =>
    cases bs with
    | nil => rfl
    | cons d ds =>
      simp only [mHeadingOpen]
      rw [if_neg (fun hh => h hh.1)]

/-- No heading open tags are found in text without `<`. -/
lemma findAll_headingOpen_nil (fuel : Nat) : ∀ (l : List Char), (∀ c ∈ l, c ≠ '<') →
    findAllL mHeadingOpen fuel l = [] := by
  induction fuel with
  | zero =>
    intro l _
    cases l <;> rfl
  | succ n ih =>
    intro l h
    cases l with
    | nil => rfl
    | cons c cs =>
      simp only [findAllL]
      rw [mHeadingOpen_none c cs (h c (List.mem_cons_self _ _))]
      exact ih cs (fun x hx => h x (List.mem_cons_of_mem _ hx))

/-- A serialized img element contains no heading open tag. -/
lemma headingDigits_serialize (attrs : List (String × String)) (hc : cleanAttrsB attrs = true) :
    headingDigits (serializeImg attrs) = [] := by
  unfold headingDigits serializeImg
  have hdata : (String.mk (serializeImgL attrs)).data = serializeImgL attrs := rfl
  rw [hdata]
  have hshape : serializeImgL attrs
      = '<' :: ('i' :: 'm' :: 'g' :: ((attrs.map imgAttrPart).join ++ ['>'])) := rfl
  rw [hshape]
  have hlen : ('<' :: ('i' :: 'm' :: 'g' :: ((attrs.map imgAttrPart).join ++ ['>']))).length
      = ('i' :: 'm' :: 'g' :: ((attrs.map imgAttrPart).join ++ ['>'])).length + 1 := rfl
  rw [hlen]
  have hstep : ∀ (k : Nat) (c : Char) (cs : List Char), mHeadingOpen (c :: cs) = none →
      findAllL mHeadingOpen (k + 1) (c :: cs) = findAllL mHeadingOpen k cs := by
    intro k c cs h
    simp only [findAllL, h]
  have hm : mHeadingOpen ('<' :: 'i' :: 'm' :: 'g'
      :: ((attrs.map imgAttrPart).join ++ ['>'])) = none := by
    simp only [mHeadingOpen]
    rw [if_neg (fun hh => absurd hh.2.1 (by decide))]
  rw [hstep _ _ _ hm]
  apply findAll_headingOpen_nil
  intro c hmem
  rcases List.mem_cons.mp hmem with rfl | h
  · decide
  rcases List.mem_cons.mp h with rfl | h
  · decide
  rcases List.mem_cons.mp h with rfl | h
  · decide
  rcases List.mem_append.mp h with h | h
  · exact (serialize_char_facts attrs hc c h).1
  · simp at h
    subst h
    decide

/-- The img scan of the serialized element finds exactly the element. -/
lemma findImgTags_serialize (attrs : List (String × String)) (hc : cleanAttrsB attrs = true) :
    findImgTags (serializeImg attrs) = [serializeImg attrs] := by
  unfold findImgTags serializeImg
  have hdata : (String.mk (serializeImgL attrs)).data = serializeImgL attrs := rfl
  rw [hdata]
  have hshape : serializeImgL attrs
      = '<' :: ('i' :: 'm' :: 'g' :: ((attrs.map imgAttrPart).join ++ ['>'])) := rfl
  rw [hshape]
  have hlen : ('<' :: ('i' :: 'm' :: 'g' :: ((attrs.map imgAttrPart).join ++ ['>']))).length
      = ('i' :: 'm' :: 'g' :: ((attrs.map imgAttrPart).join ++ ['>'])).length + 1 := rfl
  rw [hlen]
  have hm := mImgTag_serialize attrs hc
  rw [hshape] at hm
  have hstep : ∀ (k : Nat) (c : Char) (cs : List Char) (a : String),
      mImgTag (c :: cs) = some (a, []) →
      findAllL mImgTag (k + 1) (c :: cs) = [a] := by
    intro k c cs a h
    simp only [findAllL, h]
  rw [hstep _ _ _ _ hm]
  rfl

/-- The code's `'alt=' in img.lower()` test on the serialized clean element
holds exactly when an `alt` attribute is present. -/
lemma altPresentB_serialize (attrs : List (String × String)) (hc : cleanAttrsB attrs = true) :
    altPresentB (serializeImg attrs) = hasAltAttr attrs := by
  unfold altPresentB serializeImg
  have hdata : (String.mk (serializeImgL attrs)).data = serializeImgL attrs := rfl
  rw [hdata, lower_serialize attrs hc]
  cases halt : hasAltAttr attrs
  · rw [Bool.eq_false_iff]
    intro hcon
    have hocc := (containsSubB_iff _ _).mp hcon
    have := occurs_alt_in_join attrs hc (occurs_alt_serialize attrs hc hocc)
    rw [halt] at this
    exact absurd this (by simp)
  · exact (containsSubB_iff _ _).mpr (alt_occurs_of_hasAlt attrs halt)

/-- C6: a (well-behaved) img element with no `alt` attribute produces
exactly one accessibility error, while an img element carrying `alt` with
any value — including the empty string — produces no such error: the check
tests attribute presence, not content length. -/
theorem c6_img_alt_presence (attrs : List (String × String)) (hc : cleanAttrsB attrs = true) :
    (checkAccessibility (serializeImg attrs)).1
      = if hasAltAttr attrs then [] else [missingAltIssue] := by
  show imgAltErrors (serializeImg attrs)
      ++ h1CountErrors (headingLevels (serializeImg attrs)) = _
  have hlev : headingLevels (serializeImg attrs) = [] := by
    unfold headingLevels
    rw [headingDigits_serialize attrs hc]
    rfl
  rw [hlev]
  have herr : h1CountErrors [] = [] := rfl
  rw [herr, List.append_nil]
  unfold imgAltErrors
  rw [findImgTags_serialize attrs hc]
  have hfm : ∀ (b : Bool), (if b then (none : Option Issue) else some missingAltIssue)
      = if b then none else some missingAltIssue := fun _ => rfl
  rw [List.filterMap]
  cases halt : hasAltAttr attrs
  · rw [show altPresentB (serializeImg attrs) = false by rw [altPresentB_serialize attrs hc, halt]]
    rfl
  · rw [show altPresentB (serializeImg attrs) = true by rw [altPresentB_serialize attrs hc, halt]]
    rfl

/-- C6 witness: `<img src=\"x.png\">` yields exactly one missing-alt error
and `<img src=\"x.png\" alt=\"\">` yields none. -/
theorem c6_witness :
    cleanAttrsB [("src", "x.png")] = true
      ∧ (checkAccessibility (serializeImg [("src", "x.png")])).1 = [missingAltIssue]
      ∧ (checkAccessibility (serializeImg [("src", "x.png"), ("alt", "")])).1 = [] := by
  refine ⟨by decide, ?_, ?_⟩
  · rw [c6_img_alt_presence [("src", "x.png")] (by decide)]
    rfl
  · rw [c6_img_alt_presence [("src", "x.png"), ("alt", "")] (by decide)]
    rfl
